import Mathlib

/-!
Verification development for the anomaly-detection engine of AutoVisQA
(src/analysis/ai_insight_engine.py).

The Python source is shallowly embedded below.  Python floats are modelled
as exact rationals (ℚ); `statistics.pstdev` is the square root of the
population variance, so every order comparison against the standard
deviation is encoded by squaring both sides (exact, both sides being
non-negative), and the theorems restate those comparisons literally with
`Real.sqrt`.  File access is modelled by explicit source values: what the
source reads from disk becomes an argument of the embedded function.
-/

namespace AutoVisQA

/-- Embeds `statistics.mean`: the arithmetic mean of a sample.  The source
only applies it to non-empty samples (Python raises on an empty one; here
division by zero yields 0, a value no embedded caller observes). -/
def mean (xs : List ℚ) : ℚ := xs.sum / (xs.length : ℚ)

/-- Population variance of a sample (mean of squared deviations), the
square of `statistics.pstdev`.  `pstdev` is zero exactly when this is. -/
def pvariance (xs : List ℚ) : ℚ :=
  ((xs.map (fun x => (x - mean xs) ^ 2)).sum) / (xs.length : ℚ)

/-- Embeds `iqr_outliers` (ai_insight_engine.py lines 108-122): sort the
sample, read q1 at index `int(n*0.25)` and q3 at index `int(n*0.75)` of the
sorted copy (0.25 and 0.75 are dyadic, so the Python float products are
exact and the indices are the floors n/4 and 3n/4), return `[]` when the
interquartile range is 0, and otherwise the original-order indices of the
values strictly above q3 + 1.5*iqr. -/
def iqr_outliers (values : List ℚ) : List ℕ :=
  if values = [] then []
  else
    let vals := values.insertionSort (· ≤ ·)
    let q1 := vals.getD (values.length / 4) 0
    let q3 := vals.getD (values.length * 3 / 4) 0
    let iqr := q3 - q1
    if iqr = 0 then []
    else (values.enum.filter (fun p => decide (q3 + 3 / 2 * iqr < p.2))).map Prod.fst

/-- Embeds `zscore_outliers` (lines 125-138).  The source flags index i when
`abs((v - mean)/pstdev) >= threshold` (after returning `[]` for samples of
size < 2 and for zero standard deviation); with pstdev = sqrt(pvariance)
and a non-negative threshold this comparison is equivalent to
threshold^2 * pvariance <= (v - mean)^2, the computable form used here.
`zscore_outliers_mem` below proves the equivalence with the literal
formula; the source only ever passes threshold = 2.5. -/
def zscore_outliers (values : List ℚ) (threshold : ℚ) : List ℕ :=
  if values.length < 2 then []
  else if pvariance values = 0 then []
  else
    (values.enum.filter
      (fun p => decide (threshold ^ 2 * pvariance values ≤ (p.2 - mean values) ^ 2))).map
      Prod.fst

/-- Embeds `sorted(set(iqr_idx + z_idx))` (line 163): the ascending list of
the distinct indices flagged by either detection method. -/
def sorted_union (a b : List ℕ) : List ℕ := ((a ++ b).dedup).insertionSort (· ≤ ·)

/-- Embeds the dict comprehension `{u: float(t) for u, t in candidate}`
(line 184) followed by `.get(u)` (line 201): the last occurrence of a url
wins, absent urls give `none`. -/
def dict_get (l : List (String × ℚ)) (u : String) : Option ℚ :=
  ((l.filter (fun p => p.1 == u)).getLast?).map Prod.snd

/-- A per-page performance anomaly: the two record shapes appended to
`result["per_page"]` (lines 166-172 with `reason: "internal_outlier"` and
its `iqr`/`zscore` booleans, line 209 with `reason: "percent_increase"`
and its `pct`). -/
inductive PerPageAnomaly where
  | internalOutlier (url : String) (time : ℚ) (iqr zscore : Bool)
  | percentIncrease (url : String) (time : ℚ) (pct : ℚ)
  deriving DecidableEq

/-- The single record appended to `result["run_level"]` (lines 190-196). -/
structure RunLevelComparison where
  previous_run : String
  previous_avg : ℚ
  latest_avg : ℚ
  percent_change : Option ℚ
  alert : Bool
  deriving DecidableEq

/-- The result dictionary of `detect_performance_anomalies` (line 151). -/
structure PerfResult where
  per_page : List PerPageAnomaly
  run_level : List RunLevelComparison
  deriving DecidableEq

/-- Embeds lines 158-172: the internal-outlier anomalies of the latest run,
one per index in `sorted(set(iqr_idx + z_idx))`, each recording which
method flagged it.  All indices produced by the detectors are in range, so
the `getD` defaults are never read. -/
def internal_outlier_anomalies (latest_metrics : List (String × ℚ)) : List PerPageAnomaly :=
  let urls := latest_metrics.map Prod.fst
  let times := latest_metrics.map Prod.snd
  let iqr_idx := iqr_outliers times
  let z_idx := zscore_outliers times (5 / 2)
  (sorted_union iqr_idx z_idx).map (fun i =>
    PerPageAnomaly.internalOutlier (urls.getD i "") (times.getD i 0)
      (decide (i ∈ iqr_idx)) (decide (i ∈ z_idx)))

/-- Embeds lines 187-196: the run-level comparison against the chosen
baseline run.  `percent_change` is `none` when the baseline average is 0,
and the alert is raised exactly when the change is defined and its absolute
value strictly exceeds 20. -/
def run_level_comparison (prev_folder : String)
    (prev_metrics latest_metrics : List (String × ℚ)) : RunLevelComparison :=
  let prev_avg := mean (prev_metrics.map Prod.snd)
  let latest_avg := mean (latest_metrics.map Prod.snd)
  let percent_change : Option ℚ :=
    if prev_avg ≠ 0 then some ((latest_avg - prev_avg) / prev_avg * 100) else none
  ⟨prev_folder, prev_avg, latest_avg, percent_change,
    match percent_change with
    | none => false
    | some pc => decide (20 < |pc|)⟩

/-- Embeds lines 198-209: for each (url, time) of the latest run whose url
has a baseline value, the percent change versus that value, kept when its
absolute value is at least 30; pairs whose baseline value is 0 are skipped
(`pct` stays `None`).  The `try`/`except` around the computation in the
source can never fire, its operands already being floats. -/
def percent_increase_anomalies
    (latest_metrics prev_metrics : List (String × ℚ)) : List PerPageAnomaly :=
  latest_metrics.filterMap (fun p =>
    match dict_get prev_metrics p.1 with
    | none => none
    | some prev_t =>
        if prev_t ≠ 0 then
          if 30 ≤ |(p.2 - prev_t) / prev_t * 100| then
            some (PerPageAnomaly.percentIncrease p.1 p.2 ((p.2 - prev_t) / prev_t * 100))
          else none
        else none)

/-- Embeds `detect_performance_anomalies` (lines 144-211).  The file-backed
loader is abstracted as the pure function `load` from run-folder names to
their loaded metrics (the loader is embedded separately as
`load_crawl_metrics`; during one invocation the on-disk state the source
reads does not change, so re-reading a folder is pure).  The baseline is
the first folder of `reversed(folders_sorted[:-1])` whose metrics are
non-empty; without one, neither run-level nor percent-increase records are
produced. -/
def detect_performance_anomalies (load : String → List (String × ℚ))
    (latest_folder : String) (folders_sorted : List String) : PerfResult :=
  let latest_metrics := load latest_folder
  if latest_metrics = [] then ⟨[], []⟩
  else
    match (folders_sorted.dropLast.reverse).find? (fun f => !(load f).isEmpty) with
    | none => ⟨internal_outlier_anomalies latest_metrics, []⟩
    | some prev_folder =>
        ⟨internal_outlier_anomalies latest_metrics ++
            percent_increase_anomalies latest_metrics (load prev_folder),
          [run_level_comparison prev_folder (load prev_folder) latest_metrics]⟩

/-- The value found under `diffPercent` in one visual-diff record:
either one that `float()` coerces to the rational x, or one on which
`float()` raises. -/
inductive DiffVal where
  | ok (x : ℚ)
  | bad
  deriving DecidableEq

/-- One record of visual_diff_summary.json as the source reads it:
`v.get("url")` (absent fields give `none`) and the optional
`diffPercent` field. -/
structure VisualRecord where
  url : Option String
  diffPercent : Option DiffVal
  deriving DecidableEq

/-- The state of the visual_diff_summary.json resource: missing file,
present but not parseable as JSON, or a parsed list of records. -/
inductive DiffSource where
  | absent
  | unparseable
  | records (rs : List VisualRecord)
  deriving DecidableEq

/-- One record appended by `detect_visual_anomalies` (line 235); its
`reason` field is the constant "high_diff". -/
structure VisualAnomaly where
  url : Option String
  diffPercent : ℚ
  deriving DecidableEq

/-- Embeds `load_visual_diffs` (lines 97-105): `[]` when the file is absent
or `json.load` raises, the parsed records otherwise; it never raises. -/
def load_visual_diffs : DiffSource → List VisualRecord
  | DiffSource.absent => []
  | DiffSource.unparseable => []
  | DiffSource.records rs => rs

/-- The result of `float(v.get("diffPercent", 0))`: a missing field defaults
to 0, a coercible value gives its rational, an uncoercible one raises
(`none`). -/
def coerce_diff : Option DiffVal → Option ℚ
  | none => some 0
  | some (DiffVal.ok x) => some x
  | some DiffVal.bad => none

/-- Embeds the first loop of `detect_visual_anomalies` (lines 223-228): the
sample the threshold statistics are computed from, one entry per record,
with 0.0 substituted when the coercion raises (the `except` branch). -/
def visual_diffs (visual : List VisualRecord) : List ℚ :=
  visual.map (fun v => (coerce_diff v.diffPercent).getD 0)

/-- The flagging test `dp >= thr` of line 234 with
thr = max(1.0, mean + 2*pstdev) (line 231), written computably: with
s = sqrt(var) >= 0, dp >= max(1, m + 2*s) iff dp >= 1, dp >= m and
(dp - m)^2 >= 4*var.  `visual_flag_iff` below proves that equivalence. -/
def visual_flag (dp m var : ℚ) : Bool :=
  decide (1 ≤ dp) && decide (m ≤ dp) && decide (4 * var ≤ (dp - m) ^ 2)

/-- Embeds the second loop of `detect_visual_anomalies` (lines 232-235): in
input order, re-coerce each record's `diffPercent` — this time with no
`try`/`except`, so an uncoercible value aborts the whole call (modelled as
`Except.error`) — and append the records at or above the threshold. -/
def visual_scan : List VisualRecord → ℚ → ℚ → Except Unit (List VisualAnomaly)
  | [], _, _ => Except.ok []
  | v :: rest, m, var =>
    match coerce_diff v.diffPercent with
    | none => Except.error ()
    | some dp =>
        match visual_scan rest m var with
        | Except.error e => Except.error e
        | Except.ok tail =>
            Except.ok (if visual_flag dp m var then ⟨v.url, dp⟩ :: tail else tail)

/-- Embeds `detect_visual_anomalies` (lines 214-236): load the records,
return an empty result when there are none, otherwise compute the mean and
(for more than one record) the population variance of `visual_diffs` and
scan the records against the threshold. -/
def detect_visual_anomalies (src : DiffSource) : Except Unit (List VisualAnomaly) :=
  let visual := load_visual_diffs src
  if visual = [] then Except.ok []
  else
    let diffs := visual_diffs visual
    visual_scan visual (mean diffs) (if 1 < diffs.length then pvariance diffs else 0)

/-- One record of summary.json as the source reads it: the optional url
(`p.get("url")`, with an explicit JSON null folded into `none` — both are
Python `None`) and the optional `timeTaken` field, whose inner layer is the
result of `float(t)` (`none` when the coercion raises). -/
structure SummaryRec where
  url : Option String
  timeTaken : Option (Option ℚ)
  deriving DecidableEq

/-- The state of a run folder's summary.json fallback source. -/
inductive SummarySource where
  | absent
  | unparseable
  | records (rs : List SummaryRec)
  deriving DecidableEq

/-- The state of a run folder's crawl_metrics.csv tabular source:
missing file (or pandas not importable), a `pd.read_csv` failure, or a
parsed table with flags for the presence of the `url` and `timeTaken`
columns and its rows — each row's url as `str()` renders it (never fails),
and its `timeTaken` cell as `float()` coerces it (`none` when that
raises). -/
inductive CsvSource where
  | absent
  | readError
  | table (hasUrl hasTime : Bool) (rows : List (String × Option ℚ))
  deriving DecidableEq

/-- Embeds lines 86-93, one record: kept iff the url field is present, the
timeTaken field is present and `float` coerces it (the bare `except` drops
the record otherwise). -/
def surviving_record (r : SummaryRec) : Option (String × ℚ) :=
  match r.url, r.timeTaken with
  | some u, some (some t) => some (u, t)
  | _, _ => none

/-- Embeds the row loop of lines 76-77: rows are appended in order until
the first row whose `timeTaken` cell fails `float` coercion; the flag
records whether that exception fired (aborting the loop and falling
through to the JSON fallback with the partial list). -/
def collect_csv_rows : List (String × Option ℚ) → List (String × ℚ) × Bool
  | [] => ([], false)
  | (u, some t) :: rest =>
      let r := collect_csv_rows rest
      ((u, t) :: r.1, r.2)
  | (_, none) :: _ => ([], true)

/-- Embeds lines 82-94, the summary.json fallback: the records surviving
coercion are appended to whatever `metrics` already holds; an absent file
leaves `metrics` as is, and a file `json.load` cannot parse raises — the
call is not wrapped in any `try` (modelled as `Except.error`). -/
def json_fallback (metrics : List (String × ℚ)) :
    SummarySource → Except Unit (List (String × ℚ))
  | SummarySource.absent => Except.ok metrics
  | SummarySource.unparseable => Except.error ()
  | SummarySource.records rs => Except.ok (metrics ++ rs.filterMap surviving_record)

/-- Embeds `load_crawl_metrics` (lines 67-94).  A readable table with both
required columns returns its rows directly when every coercion succeeds;
a coercion failure mid-loop is caught and falls through to the fallback
with the partial rows already collected; every other CSV state falls
through to the fallback with no rows. -/
def load_crawl_metrics (csv : CsvSource) (summary : SummarySource) :
    Except Unit (List (String × ℚ)) :=
  match csv with
  | CsvSource.table true true rows =>
      match collect_csv_rows rows with
      | (ms, false) => Except.ok ms
      | (ms, true) => json_fallback ms summary
  | CsvSource.table _ _ _ => json_fallback [] summary
  | CsvSource.absent => json_fallback [] summary
  | CsvSource.readError => json_fallback [] summary

/-- One bullet of the deterministic local summary (lines 292-327).  Each
constructor is one of the f-strings of the source, carrying exactly the
values the f-string interpolates; the fixed prose (including the two
static recommendation strings of lines 322-325) carries no data. -/
inductive Bullet where
  | runLevelAlert (pct : ℚ) (previous_run : String)
  | runLevelNeutral (pct : ℚ) (previous_run : String)
  | perPageCount (n : ℕ)
  | perPagePct (url : String) (pct : ℚ)
  | perPageTime (url : String) (time : ℚ)
  | visualCount (n : ℕ)
  | stable
  | recommendation1
  | recommendation2
  deriving DecidableEq

/-- The `source` tag of the returned summary (lines 287, 328). -/
inductive InsightSource where
  | openai
  | localFallback
  deriving DecidableEq

/-- The value returned by `generate_text_summary`: its `source` tag and the
bullet list its text is joined from. -/
structure TextSummary where
  source : InsightSource
  bullets : List Bullet
  deriving DecidableEq

/-- Embeds lines 308-312, one example sub-bullet: records whose reason is
`percent_increase` show their percent change, all others (the
internal-outlier records) their raw elapsed time. -/
def bullet_of_anomaly : PerPageAnomaly → Bullet
  | PerPageAnomaly.percentIncrease url _ pct => Bullet.perPagePct url pct
  | PerPageAnomaly.internalOutlier url time _ _ => Bullet.perPageTime url time

/-- Embeds the local fallback path of `generate_text_summary`
(lines 292-328); the OpenAI branch (lines 269-290) is the optional
external collaborator outside the core and is taken only when that
collaborator is configured, so the deterministic path is the one embedded.
Run-level comparisons whose `percent_change` is `None` are skipped by the
`if pct is not None` guard of line 297. -/
def generate_text_summary (perf_anoms : PerfResult)
    (visual_anoms : List VisualAnomaly) : TextSummary :=
  let bullets : List Bullet :=
    perf_anoms.run_level.foldl (fun acc r =>
      match r.percent_change with
      | none => acc
      | some pct =>
          acc ++ [if 20 < |pct| then Bullet.runLevelAlert pct r.previous_run
                  else Bullet.runLevelNeutral pct r.previous_run]) []
  let bullets :=
    if perf_anoms.per_page.isEmpty then bullets
    else bullets ++ (Bullet.perPageCount perf_anoms.per_page.length ::
      (perf_anoms.per_page.take 4).map bullet_of_anomaly)
  let bullets :=
    if visual_anoms.isEmpty then bullets
    else bullets ++ [Bullet.visualCount visual_anoms.length]
  let bullets := if bullets.isEmpty then [Bullet.stable] else bullets
  ⟨InsightSource.localFallback, bullets ++ [Bullet.recommendation1, Bullet.recommendation2]⟩

/-- Concrete two-run loader fixture for the per-page percent rule: page "a"
moves from 10 (the baseline repeats the url, last write wins over 7) to 13,
a change of exactly 30 percent; page "b" moves from 10 to 12.9999, a change
of 29.999 percent. -/
def load_c3 : String → List (String × ℚ) := fun f =>
  if f = "r2" then [("a", 13), ("b", 129999 / 10000)]
  else if f = "r1" then [("a", 7), ("a", 10), ("b", 10)] else []

/-- Concrete two-run loader fixture in which page "h" is both an internal
outlier of the latest run (z-score 2.6457... at 10s against seven 1s
pages) and a 900 percent increase over its baseline value. -/
def load_c9 : String → List (String × ℚ) := fun f =>
  if f = "r2" then
    [("a", 1), ("b", 1), ("c", 1), ("d", 1), ("e", 1), ("f", 1), ("g", 1), ("h", 10)]
  else if f = "r1" then
    [("a", 1), ("b", 1), ("c", 1), ("d", 1), ("e", 1), ("f", 1), ("g", 1), ("h", 1)]
  else []

/-- Concrete two-run loader fixture whose baseline "r1" has average elapsed
time 0, so the run-level comparison carries a null percent change. -/
def load_c6 : String → List (String × ℚ) := fun f =>
  if f = "r2" then [("a", 5)]
  else if f = "r1" then [("a", 0), ("b", 0)] else []

/-- Recognizes the run-level bullets among the summary bullets. -/
def isRunLevelBullet : Bullet → Bool := fun b =>
  match b with
  | Bullet.runLevelAlert _ _ => true
  | Bullet.runLevelNeutral _ _ => true
  | _ => false

/-! Helper lemmas. -/

theorem pvariance_nonneg (xs : List ℚ) : 0 ≤ pvariance xs := by
  apply div_nonneg
  · apply List.sum_nonneg
    intro x hx
    obtain ⟨y, -, rfl⟩ := List.mem_map.mp hx
    positivity
  · positivity

theorem mem_map_fst_filter_enum {l : List ℚ} {p : ℚ → Bool} {i : ℕ} :
    i ∈ (l.enum.filter (fun q => p q.2)).map Prod.fst ↔
      ∃ hi : i < l.length, p (l.get ⟨i, hi⟩) = true := by
  constructor
  · intro h
    obtain ⟨⟨j, v⟩, hmem, rfl⟩ := List.mem_map.mp h
    obtain ⟨he, hp⟩ := List.mem_filter.mp hmem
    obtain ⟨hj, hv⟩ := List.getElem?_eq_some.mp (List.mk_mem_enum_iff_getElem?.mp he)
    exact ⟨hj, by simpa [List.get_eq_getElem, hv] using hp⟩
  · rintro ⟨hi, hp⟩
    refine List.mem_map.mpr ⟨(i, l.get ⟨i, hi⟩), List.mem_filter.mpr ⟨?_, hp⟩, rfl⟩
    exact List.mk_mem_enum_iff_getElem?.mpr (by simp [List.get_eq_getElem])

theorem getD_sorted_le {values : List ℚ} {a b : ℕ} (hab : a ≤ b)
    (hb : b < values.length) :
    (values.insertionSort (· ≤ ·)).getD a 0 ≤ (values.insertionSort (· ≤ ·)).getD b 0 := by
  have hlen : (values.insertionSort (· ≤ ·)).length = values.length :=
    List.length_insertionSort _ _
  have hb' : b < (values.insertionSort (· ≤ ·)).length := by rw [hlen]; exact hb
  have ha' : a < (values.insertionSort (· ≤ ·)).length := lt_of_le_of_lt hab hb'
  rw [List.getD_eq_getElem _ _ ha', List.getD_eq_getElem _ _ hb']
  rcases lt_or_eq_of_le hab with hlt | rfl
  · have := (List.sorted_insertionSort (· ≤ ·) values).rel_get_of_lt
      (a := ⟨a, ha'⟩) (b := ⟨b, hb'⟩) hlt
    simpa [List.get_eq_getElem] using this
  · exact le_refl _

/-- An element read off the sorted copy is an element of the sample. -/
theorem getD_sorted_mem {values : List ℚ} {a : ℕ} (ha : a < values.length) :
    (values.insertionSort (· ≤ ·)).getD a 0 ∈ values := by
  have hlen : (values.insertionSort (· ≤ ·)).length = values.length :=
    List.length_insertionSort _ _
  have ha' : a < (values.insertionSort (· ≤ ·)).length := by rw [hlen]; exact ha
  rw [List.getD_eq_getElem _ _ ha']
  exact (List.perm_insertionSort (· ≤ ·) values).mem_iff.mp (List.getElem_mem ha')

/-- The squared encoding of a z-score comparison is the literal one:
for a non-negative threshold and positive variance,
t <= abs d / sqrt var iff t^2 * var <= d^2. -/
theorem le_abs_div_sqrt_iff (t d var : ℚ) (ht : 0 ≤ t) (hv : 0 < var) :
    ((t : ℝ) ≤ |(d : ℝ)| / Real.sqrt (var : ℝ)) ↔ t ^ 2 * var ≤ d ^ 2 := by
  have hv' : (0 : ℝ) < (var : ℝ) := by exact_mod_cast hv
  have hs : (0 : ℝ) < Real.sqrt (var : ℝ) := Real.sqrt_pos.mpr hv'
  rw [le_div_iff₀ hs,
    ← pow_le_pow_iff_left₀ (by positivity) (abs_nonneg _) (two_ne_zero),
    mul_pow, Real.sq_sqrt hv'.le, sq_abs]
  constructor
  · intro h
    exact_mod_cast h
  · intro h
    exact_mod_cast h

/-! C4: the IQR method. -/

/-- C4: for every numeric sample, the IQR method sorts the sample, takes q1
at index floor(0.25*n) and q3 at floor(0.75*n) of the sorted values (n the
sample length), returns the empty set when q3 - q1 = 0 (hence for every
all-equal sample), and otherwise returns exactly the original-order indices
i with value[i] > q3 + 1.5*(q3 - q1); no lower-tail index is ever flagged
(every flagged value lies strictly above q3). -/
theorem c4_iqr_method (values : List ℚ) (h : values ≠ []) (q1 q3 : ℚ)
    (hq1 : q1 = (values.insertionSort (· ≤ ·)).getD (values.length / 4) 0)
    (hq3 : q3 = (values.insertionSort (· ≤ ·)).getD (values.length * 3 / 4) 0) :
    (q3 - q1 = 0 → iqr_outliers values = []) ∧
    (∀ c : ℚ, (∀ x ∈ values, x = c) → iqr_outliers values = []) ∧
    (q3 - q1 ≠ 0 → ∀ i : ℕ,
      (i ∈ iqr_outliers values ↔
        ∃ hi : i < values.length, q3 + 3 / 2 * (q3 - q1) < values.get ⟨i, hi⟩)) ∧
    (∀ i ∈ iqr_outliers values, ∀ hi : i < values.length, q3 < values.get ⟨i, hi⟩) := by
  have hn : 0 < values.length := List.length_pos.mpr h
  have hq1lt : values.length / 4 < values.length := Nat.div_lt_self hn (by norm_num)
  have hq3lt : values.length * 3 / 4 < values.length := by
    rw [Nat.div_lt_iff_lt_mul (by norm_num : 0 < 4)]
    omega
  have hq13 : q1 ≤ q3 := by
    rw [hq1, hq3]
    exact getD_sorted_le (Nat.div_le_div_right (by omega)) hq3lt
  have hunfold : iqr_outliers values =
      if q3 - q1 = 0 then []
      else (values.enum.filter (fun p => decide (q3 + 3 / 2 * (q3 - q1) < p.2))).map
        Prod.fst := by
    simp only [iqr_outliers]
    rw [if_neg h, ← hq1, ← hq3]
  have hzero : q3 - q1 = 0 → iqr_outliers values = [] := by
    intro h0
    rw [hunfold, if_pos h0]
  have hchar : q3 - q1 ≠ 0 → ∀ i : ℕ,
      (i ∈ iqr_outliers values ↔
        ∃ hi : i < values.length, q3 + 3 / 2 * (q3 - q1) < values.get ⟨i, hi⟩) := by
    intro h0 i
    rw [hunfold, if_neg h0,
      mem_map_fst_filter_enum (p := fun v => decide (q3 + 3 / 2 * (q3 - q1) < v))]
    constructor
    · rintro ⟨hi, hp⟩
      exact ⟨hi, by simpa using hp⟩
    · rintro ⟨hi, hp⟩
      exact ⟨hi, by simpa using hp⟩
  refine ⟨hzero, ?_, hchar, ?_⟩
  · intro c hc
    apply hzero
    have h1 : q1 = c := hc _ (by rw [hq1]; exact getD_sorted_mem hq1lt)
    have h3 : q3 = c := hc _ (by rw [hq3]; exact getD_sorted_mem hq3lt)
    rw [h1, h3, sub_self]
  · intro i hi hilen
    by_cases h0 : q3 - q1 = 0
    · rw [hzero h0] at hi
      exact absurd hi (List.not_mem_nil i)
    · obtain ⟨hi', hp⟩ := (hchar h0 i).mp hi
      have hiqr : 0 < q3 - q1 := lt_of_le_of_ne (by linarith) (Ne.symm h0)
      have : values.get ⟨i, hi'⟩ = values.get ⟨i, hilen⟩ := rfl
      rw [this] at hp
      linarith

/-- Witness for C4 at concrete samples: the all-equal sample [1,1,1,1] gets
no outliers, and in [1,2,3,4,100] the index of 100 is flagged (q1 = 2,
q3 = 4, fence 4 + 1.5*2 = 7 < 100). -/
theorem c4_iqr_method_witness :
    iqr_outliers [1, 1, 1, 1] = [] ∧ 4 ∈ iqr_outliers [1, 2, 3, 4, 100] := by
  constructor
  · exact (c4_iqr_method [1, 1, 1, 1] (by simp) _ _ rfl rfl).2.1 1 (by
      intro x hx
      fin_cases hx <;> rfl)
  · have h := (c4_iqr_method [1, 2, 3, 4, 100] (by simp) _ _ rfl rfl).2.2.1
    rw [show ([1, 2, 3, 4, 100] : List ℚ).insertionSort (· ≤ ·) = [1, 2, 3, 4, 100] by
      norm_num [List.insertionSort, List.orderedInsert]] at h
    refine (h (by norm_num [List.getD]) 4).mpr ⟨by norm_num, by norm_num [List.get]⟩

/-! C8: the z-score method. -/

/-- C8: for every numeric sample, the z-score method returns the empty set
for samples of size < 2 and for zero standard deviation, and otherwise
flags exactly the indices i with abs(value[i] - mean) / stdev >= 2.5,
where mean and stdev are the population mean and population standard
deviation (the variance divides by n, not n - 1). -/
theorem c8_zscore_method (values : List ℚ) :
    (values.length < 2 → zscore_outliers values (5 / 2) = []) ∧
    (Real.sqrt ((pvariance values : ℚ) : ℝ) = 0 → zscore_outliers values (5 / 2) = []) ∧
    (2 ≤ values.length → pvariance values ≠ 0 → ∀ i : ℕ,
      (i ∈ zscore_outliers values (5 / 2) ↔
        ∃ hi : i < values.length,
          (5 / 2 : ℝ) ≤ |((values.get ⟨i, hi⟩ : ℚ) : ℝ) - ((mean values : ℚ) : ℝ)| /
            Real.sqrt ((pvariance values : ℚ) : ℝ))) := by
  have hvnn : (0 : ℝ) ≤ ((pvariance values : ℚ) : ℝ) := by
    exact_mod_cast pvariance_nonneg values
  refine ⟨?_, ?_, ?_⟩
  · intro hlt
    rw [zscore_outliers, if_pos hlt]
  · intro hs
    have h0 : pvariance values = 0 := by
      exact_mod_cast (Real.sqrt_eq_zero hvnn).mp hs
    by_cases hlt : values.length < 2
    · rw [zscore_outliers, if_pos hlt]
    · rw [zscore_outliers, if_neg hlt, if_pos h0]
  · intro hge h0 i
    have hlt : ¬values.length < 2 := by omega
    rw [zscore_outliers, if_neg hlt, if_neg h0,
      mem_map_fst_filter_enum
        (p := fun v => decide ((5 / 2) ^ 2 * pvariance values ≤ (v - mean values) ^ 2))]
    have hvpos : 0 < pvariance values :=
      lt_of_le_of_ne (pvariance_nonneg values) (Ne.symm h0)
    constructor
    · rintro ⟨hi, hp⟩
      refine ⟨hi, ?_⟩
      have hq : (5 / 2 : ℚ) ^ 2 * pvariance values ≤
          (values.get ⟨i, hi⟩ - mean values) ^ 2 := by simpa using hp
      have h2 := (le_abs_div_sqrt_iff (5 / 2) (values.get ⟨i, hi⟩ - mean values)
        (pvariance values) (by norm_num) hvpos).mpr hq
      push_cast at h2
      exact h2
    · rintro ⟨hi, hp⟩
      refine ⟨hi, ?_⟩
      rw [decide_eq_true_eq]
      apply (le_abs_div_sqrt_iff (5 / 2) (values.get ⟨i, hi⟩ - mean values)
        (pvariance values) (by norm_num) hvpos).mp
      push_cast
      exact hp

/-- Witness for C8 at concrete samples: a singleton sample is never
flagged, and in [0,0,0,0,0,0,0,10] (mean 17/8, variance 567/64) the index
of 10 has z-score 63/(8*sqrt(567/64)) = 2.6458... >= 2.5 and is flagged. -/
theorem c8_zscore_method_witness :
    zscore_outliers [5] (5 / 2) = [] ∧
    7 ∈ zscore_outliers [0, 0, 0, 0, 0, 0, 0, 10] (5 / 2) := by
  constructor
  · exact (c8_zscore_method [5]).1 (by norm_num)
  · have h := (c8_zscore_method [0, 0, 0, 0, 0, 0, 0, 10]).2.2 (by norm_num)
      (by norm_num [pvariance, mean])
    refine (h 7).mpr ⟨by norm_num, ?_⟩
    rw [show mean [0, 0, 0, 0, 0, 0, 0, 10] = 5 / 4 by norm_num [mean],
      show pvariance [0, 0, 0, 0, 0, 0, 0, 10] = 175 / 16 by norm_num [pvariance, mean]]
    rw [le_div_iff₀ (Real.sqrt_pos.mpr (by norm_num))]
    have hs : Real.sqrt ((175 / 16 : ℚ) : ℝ) ≤ 27 / 8 := by
      rw [show ((175 / 16 : ℚ) : ℝ) = 175 / 16 by norm_num]
      rw [show (27 / 8 : ℝ) = Real.sqrt ((27 / 8) ^ 2) by
        rw [Real.sqrt_sq (by norm_num)]]
      exact Real.sqrt_le_sqrt (by norm_num)
    have habs : |((([0, 0, 0, 0, 0, 0, 0, 10] : List ℚ).get ⟨7, by norm_num⟩ : ℚ) : ℝ) -
        ((5 / 4 : ℚ) : ℝ)| = 35 / 4 := by
      norm_num [List.get]
    rw [habs]
    nlinarith [Real.sqrt_nonneg ((175 / 16 : ℚ) : ℝ)]

/-! The visual analyzer. -/

/-- The computable flag test equals the source's literal test against
thr = max(1.0, mean + 2*stdev), stdev being the square root of the
variance. -/
theorem visual_flag_iff (dp m var : ℚ) (hv : 0 ≤ var) :
    visual_flag dp m var = true ↔
      max 1 ((m : ℝ) + 2 * Real.sqrt ((var : ℚ) : ℝ)) ≤ (dp : ℝ) := by
  have hv' : (0 : ℝ) ≤ ((var : ℚ) : ℝ) := by exact_mod_cast hv
  have hs : (0 : ℝ) ≤ Real.sqrt ((var : ℚ) : ℝ) := Real.sqrt_nonneg _
  rw [visual_flag]
  simp only [Bool.and_eq_true, decide_eq_true_eq]
  rw [max_le_iff]
  constructor
  · rintro ⟨⟨h1, hm⟩, h4⟩
    have h4' : (4 : ℝ) * ((var : ℚ) : ℝ) ≤ ((dp : ℝ) - (m : ℝ)) ^ 2 := by
      exact_mod_cast h4
    have hdm : (0 : ℝ) ≤ (dp : ℝ) - (m : ℝ) := by
      rw [sub_nonneg]
      exact_mod_cast hm
    refine ⟨by exact_mod_cast h1, ?_⟩
    have hsq : 2 * Real.sqrt ((var : ℚ) : ℝ) = Real.sqrt (4 * ((var : ℚ) : ℝ)) := by
      rw [show (4 : ℝ) * ((var : ℚ) : ℝ) = 2 ^ 2 * ((var : ℚ) : ℝ) by ring,
        Real.sqrt_mul (by positivity), Real.sqrt_sq (by norm_num)]
    have hle : Real.sqrt (4 * ((var : ℚ) : ℝ)) ≤ (dp : ℝ) - (m : ℝ) := by
      calc Real.sqrt (4 * ((var : ℚ) : ℝ)) ≤ Real.sqrt (((dp : ℝ) - (m : ℝ)) ^ 2) :=
            Real.sqrt_le_sqrt h4'
        _ = (dp : ℝ) - (m : ℝ) := Real.sqrt_sq hdm
    rw [hsq]
    linarith
  · rintro ⟨h1, h2⟩
    have hm : (m : ℝ) ≤ (dp : ℝ) := by nlinarith
    refine ⟨⟨by exact_mod_cast h1, by exact_mod_cast hm⟩, ?_⟩
    have h2' : 2 * Real.sqrt ((var : ℚ) : ℝ) ≤ (dp : ℝ) - (m : ℝ) := by linarith
    have hmul := mul_self_le_mul_self (by positivity) h2'
    have hss : Real.sqrt ((var : ℚ) : ℝ) * Real.sqrt ((var : ℚ) : ℝ) = ((var : ℚ) : ℝ) :=
      Real.mul_self_sqrt hv'
    have h4' : (4 : ℝ) * ((var : ℚ) : ℝ) ≤ ((dp : ℝ) - (m : ℝ)) ^ 2 := by nlinarith
    exact_mod_cast h4'

/-- On a collection whose records all coerce, the flagging loop returns, in
input order, exactly the records whose (defaulted) diff percentage passes
the flag test. -/
theorem visual_scan_eq_filter (rs : List VisualRecord) (m var : ℚ)
    (hwf : ∀ v ∈ rs, v.diffPercent ≠ some DiffVal.bad) :
    visual_scan rs m var = Except.ok
      ((rs.filter
          (fun v => visual_flag ((coerce_diff v.diffPercent).getD 0) m var)).map
        (fun v => ⟨v.url, (coerce_diff v.diffPercent).getD 0⟩)) := by
  induction rs with
  | nil => rfl
  | cons v rest ih =>
    have hv := hwf v (List.mem_cons_self v rest)
    have hdp : ∃ dp, coerce_diff v.diffPercent = some dp := by
      match h : v.diffPercent with
      | none => exact ⟨0, rfl⟩
      | some (DiffVal.ok x) => exact ⟨x, rfl⟩
      | some DiffVal.bad => exact absurd h hv
    obtain ⟨dp, hdp⟩ := hdp
    rw [visual_scan, hdp, ih (fun w hw => hwf w (List.mem_cons_of_mem v hw))]
    simp only [List.filter_cons, hdp, Option.getD_some]
    by_cases hf : visual_flag dp m var
    · rw [if_pos (by exact hf), if_pos hf]
      simp [hdp]
    · rw [if_neg (by simpa using hf), if_neg hf]

/-! C5: the visual anomaly threshold. -/

/-- C5: on a collection with no uncoercible record, an empty collection
yields an empty result; otherwise, with m the mean and s the population
standard deviation of the diff-percentage sample (s = 0 when there are
fewer than 2 records), exactly the records whose diff percentage is at or
above max(1.0, m + 2*s) are flagged, in input order; and in a collection
whose diffs are all 0 the threshold floor 1.0 flags nothing. -/
theorem c5_visual_threshold (rs : List VisualRecord) (vvar : ℚ)
    (hwf : ∀ v ∈ rs, v.diffPercent ≠ some DiffVal.bad)
    (hvar : vvar =
      if 1 < (visual_diffs rs).length then pvariance (visual_diffs rs) else 0) :
    (detect_visual_anomalies (DiffSource.records rs) =
      Except.ok ((rs.filter
          (fun v => visual_flag ((coerce_diff v.diffPercent).getD 0)
            (mean (visual_diffs rs)) vvar)).map
        (fun v => ⟨v.url, (coerce_diff v.diffPercent).getD 0⟩))) ∧
    (∀ dp : ℚ, visual_flag dp (mean (visual_diffs rs)) vvar = true ↔
      max 1 ((mean (visual_diffs rs) : ℝ) + 2 * Real.sqrt ((vvar : ℚ) : ℝ)) ≤ (dp : ℝ)) ∧
    ((∀ v ∈ rs, (coerce_diff v.diffPercent).getD 0 = 0) →
      detect_visual_anomalies (DiffSource.records rs) = Except.ok []) := by
  have hv0 : 0 ≤ vvar := by
    rw [hvar]
    by_cases h : 1 < (visual_diffs rs).length
    · rw [if_pos h]; exact pvariance_nonneg _
    · rw [if_neg h]
  have hmain : detect_visual_anomalies (DiffSource.records rs) =
      Except.ok ((rs.filter
          (fun v => visual_flag ((coerce_diff v.diffPercent).getD 0)
            (mean (visual_diffs rs)) vvar)).map
        (fun v => ⟨v.url, (coerce_diff v.diffPercent).getD 0⟩)) := by
    by_cases h : rs = []
    · subst h; subst hvar; rfl
    · simp only [detect_visual_anomalies, load_visual_diffs]
      rw [if_neg h, ← hvar]
      exact visual_scan_eq_filter rs _ _ hwf
  refine ⟨hmain, fun dp => visual_flag_iff dp _ vvar hv0, ?_⟩
  intro hz
  rw [hmain]
  have hnone : rs.filter
      (fun v => visual_flag ((coerce_diff v.diffPercent).getD 0)
        (mean (visual_diffs rs)) vvar) = [] := by
    apply List.filter_eq_nil_iff.mpr
    intro v hv
    rw [hz v hv]
    have h10 : ¬(1 : ℚ) ≤ 0 := by norm_num
    simp [visual_flag, h10]
  rw [hnone]
  rfl

/-- Witness for C5: in a collection of nine coercible records, one with
diff 1 and eight with diff 0 (mean 1/9, variance 8/81, mean + 2*stdev =
1/9 + 4*sqrt(2)/9 < 1, so the floor 1.0 is the threshold), exactly the
record with diff 1 is flagged — a diff equal to the threshold is included;
and a collection of four all-zero records flags nothing. -/
theorem c5_visual_threshold_witness :
    detect_visual_anomalies (DiffSource.records
        (⟨some "p", some (DiffVal.ok 1)⟩ ::
          List.replicate 8 ⟨some "q", some (DiffVal.ok 0)⟩)) =
      Except.ok [⟨some "p", 1⟩] ∧
    detect_visual_anomalies (DiffSource.records
        (List.replicate 4 ⟨some "q", some (DiffVal.ok 0)⟩)) = Except.ok [] := by
  constructor
  · have h := (c5_visual_threshold
        (⟨some "p", some (DiffVal.ok 1)⟩ ::
          List.replicate 8 ⟨some "q", some (DiffVal.ok 0)⟩) (8 / 81)
        (by
          intro v hv
          rcases List.mem_cons.mp hv with rfl | hv
          · simp
          · rw [List.eq_of_mem_replicate hv]
            decide)
        (by norm_num [visual_diffs, List.replicate, coerce_diff, pvariance, mean])).1
    rw [h]
    norm_num [List.replicate, List.filter, visual_flag, visual_diffs, coerce_diff,
      mean, pvariance]
  · have h := (c5_visual_threshold
        (List.replicate 4 ⟨some "q", some (DiffVal.ok 0)⟩) 0
        (by
          intro v hv
          rw [List.eq_of_mem_replicate hv]
          decide)
        (by norm_num [visual_diffs, List.replicate, coerce_diff, pvariance, mean])).2.2
    apply h
    intro v hv
    rw [List.eq_of_mem_replicate hv]
    rfl

/-! C1: behaviour on malformed visual-diff records. -/

/-- C1: the loader indeed returns [] (and never raises) for an absent or
unparseable resource, but the visual anomaly analysis does NOT survive a
record whose diffPercent fails numeric coercion: the flagging loop
re-coerces the field outside any try/except, so the whole analysis raises
(modelled as `Except.error ()`) instead of dropping the record — the first
loop's protected coercion shows the opposite intent. -/
theorem c1_malformed_record_raises :
    load_visual_diffs DiffSource.absent = [] ∧
    load_visual_diffs DiffSource.unparseable = [] ∧
    detect_visual_anomalies
        (DiffSource.records [⟨some "a", some DiffVal.bad⟩]) = Except.error () :=
  ⟨rfl, rfl, rfl⟩

/-! C10: malformed records enter the threshold statistics. -/

/-- C10: the sample the visual threshold statistics are computed from has
one entry per input record, records whose diffPercent is missing or
uncoercible contributing the value 0; the analysis computes its mean and
variance from exactly that sample; and concretely, adding one uncoercible
record to the two-record collection with diffs 0 and 10 lowers the
threshold max(1, mean + 2*stdev) from 15 to 10/3 + 2*sqrt(200/9) < 15. -/
theorem c10_malformed_in_stats :
    (∀ rs : List VisualRecord, (visual_diffs rs).length = rs.length) ∧
    (∀ rs : List VisualRecord, ∀ i : ℕ,
      ((rs.getD i ⟨none, none⟩).diffPercent = some DiffVal.bad ∨
        (rs.getD i ⟨none, none⟩).diffPercent = none) →
      (visual_diffs rs).getD i 0 = 0) ∧
    (∀ rs : List VisualRecord, rs ≠ [] →
      detect_visual_anomalies (DiffSource.records rs) =
        visual_scan rs (mean (visual_diffs rs))
          (if 1 < (visual_diffs rs).length then pvariance (visual_diffs rs) else 0)) ∧
    max 1 ((mean (visual_diffs [⟨some "c", some DiffVal.bad⟩,
        ⟨some "a", some (DiffVal.ok 0)⟩, ⟨some "b", some (DiffVal.ok 10)⟩]) : ℝ) +
      2 * Real.sqrt ((pvariance (visual_diffs [⟨some "c", some DiffVal.bad⟩,
        ⟨some "a", some (DiffVal.ok 0)⟩, ⟨some "b", some (DiffVal.ok 10)⟩]) : ℚ) : ℝ)) <
    max 1 ((mean (visual_diffs [⟨some "a", some (DiffVal.ok 0)⟩,
        ⟨some "b", some (DiffVal.ok 10)⟩]) : ℝ) +
      2 * Real.sqrt ((pvariance (visual_diffs [⟨some "a", some (DiffVal.ok 0)⟩,
        ⟨some "b", some (DiffVal.ok 10)⟩]) : ℚ) : ℝ)) := by
  refine ⟨fun rs => List.length_map rs _, ?_, ?_, ?_⟩
  · intro rs i hmal
    by_cases hi : i < rs.length
    · have hi' : i < (visual_diffs rs).length := by
        simp only [visual_diffs, List.length_map]; exact hi
      rw [List.getD_eq_getElem _ _ hi'] at *
      rw [List.getD_eq_getElem _ _ hi] at hmal
      show (rs.map (fun v => (coerce_diff v.diffPercent).getD 0))[i] = 0
      rw [List.getElem_map]
      rcases hmal with h | h <;> rw [h] <;> rfl
    · have hlen : (visual_diffs rs).length ≤ i := by
        simp only [visual_diffs, List.length_map]; omega
      rw [List.getD_eq_getElem?_getD, List.getElem?_eq_none hlen]
      rfl
  · intro rs h
    simp only [detect_visual_anomalies, load_visual_diffs]
    rw [if_neg h]
  · have e1 : visual_diffs [⟨some "c", some DiffVal.bad⟩,
        ⟨some "a", some (DiffVal.ok 0)⟩, ⟨some "b", some (DiffVal.ok 10)⟩] =
        [0, 0, 10] := rfl
    have e2 : visual_diffs [⟨some "a", some (DiffVal.ok 0)⟩,
        ⟨some "b", some (DiffVal.ok 10)⟩] = [0, 10] := rfl
    rw [e1, e2,
      show mean [0, 0, 10] = 10 / 3 by norm_num [mean],
      show pvariance [0, 0, 10] = 200 / 9 by norm_num [pvariance, mean],
      show mean [0, 10] = 5 by norm_num [mean],
      show pvariance [0, 10] = 25 by norm_num [pvariance, mean]]
    have h25 : Real.sqrt ((25 : ℚ) : ℝ) = 5 := by
      rw [show ((25 : ℚ) : ℝ) = 5 ^ 2 by norm_num, Real.sqrt_sq (by norm_num)]
    have hlt : Real.sqrt ((200 / 9 : ℚ) : ℝ) < 35 / 6 := by
      rw [Real.sqrt_lt' (by norm_num)]
      norm_num
    rw [h25, show ((5 : ℚ) : ℝ) + 2 * 5 = 15 by norm_num,
      max_eq_right (by norm_num : (1 : ℝ) ≤ 15)]
    have h103 : ((10 / 3 : ℚ) : ℝ) = 10 / 3 := by norm_num
    rw [h103]
    rw [max_lt_iff]
    constructor
    · norm_num
    · nlinarith [Real.sqrt_nonneg ((200 / 9 : ℚ) : ℝ)]

/-- Witness for C10 at a concrete record: a single uncoercible record
contributes the sample value 0. -/
theorem c10_malformed_in_stats_witness :
    (visual_diffs [⟨some "a", some DiffVal.bad⟩]).getD 0 0 = 0 :=
  c10_malformed_in_stats.2.1 [⟨some "a", some DiffVal.bad⟩] 0 (Or.inl rfl)

/-! C7: the metrics loader fallback. -/

/-- C7: when the tabular source is absent, unreadable, or lacks a required
column, the loader returns exactly the surviving (coercible) records of
the JSON fallback; when both sources are absent it returns the empty list.
But with the tabular source absent and the JSON fallback present yet
unparseable, `json.load` raises outside any try, so the loader raises
(modelled as `Except.error ()`) instead of returning the empty list. -/
theorem c7_load_metrics_fallback :
    (∀ rs : List SummaryRec,
      load_crawl_metrics CsvSource.absent (SummarySource.records rs) =
        Except.ok (rs.filterMap surviving_record)) ∧
    (∀ rs : List SummaryRec,
      load_crawl_metrics CsvSource.readError (SummarySource.records rs) =
        Except.ok (rs.filterMap surviving_record)) ∧
    (∀ (rs : List SummaryRec) (hasTime : Bool) (rows : List (String × Option ℚ)),
      load_crawl_metrics (CsvSource.table false hasTime rows)
        (SummarySource.records rs) = Except.ok (rs.filterMap surviving_record)) ∧
    (∀ (rs : List SummaryRec) (hasUrl : Bool) (rows : List (String × Option ℚ)),
      load_crawl_metrics (CsvSource.table hasUrl false rows)
        (SummarySource.records rs) = Except.ok (rs.filterMap surviving_record)) ∧
    load_crawl_metrics CsvSource.absent SummarySource.absent = Except.ok [] ∧
    load_crawl_metrics CsvSource.absent SummarySource.unparseable = Except.error () := by
  refine ⟨fun rs => rfl, fun rs => rfl, ?_, ?_, rfl, rfl⟩
  · intro rs hasTime rows
    cases hasTime <;> rfl
  · intro rs hasUrl rows
    cases hasUrl <;> rfl

/-! C2: run-level contract of the performance analyzer. -/

/-- No internal-outlier record is a percent-increase record. -/
theorem mem_internal_outlier {lm : List (String × ℚ)} {a : PerPageAnomaly}
    (ha : a ∈ internal_outlier_anomalies lm) :
    ∃ url time b1 b2, a = PerPageAnomaly.internalOutlier url time b1 b2 := by
  simp only [internal_outlier_anomalies] at ha
  obtain ⟨i, -, rfl⟩ := List.mem_map.mp ha
  exact ⟨_, _, _, _, rfl⟩

/-- C2: an empty latest run yields the empty result with no error; without
a prior run with data there is neither a run-level comparison nor any
percent-increase record; with one there is exactly one comparison whose
averages are the two arithmetic means, whose percent change is
(latestAvg - previousAvg)/previousAvg * 100 (null when previousAvg = 0),
and whose alert holds iff the change is defined with absolute value
strictly above 20; at averages 10 and 12 the change is exactly 20 and the
alert is off. -/
theorem c2_run_level_contract (load : String → List (String × ℚ))
    (latest : String) (folders : List String) :
    (load latest = [] →
      detect_performance_anomalies load latest folders = ⟨[], []⟩) ∧
    (load latest ≠ [] →
      (folders.dropLast.reverse).find? (fun f => !(load f).isEmpty) = none →
      (detect_performance_anomalies load latest folders).run_level = [] ∧
      ∀ (u : String) (t pc : ℚ), PerPageAnomaly.percentIncrease u t pc ∉
        (detect_performance_anomalies load latest folders).per_page) ∧
    (∀ prev : String, load latest ≠ [] →
      (folders.dropLast.reverse).find? (fun f => !(load f).isEmpty) = some prev →
      ∃ r : RunLevelComparison,
        (detect_performance_anomalies load latest folders).run_level = [r] ∧
        r.previous_run = prev ∧
        r.previous_avg = mean ((load prev).map Prod.snd) ∧
        r.latest_avg = mean ((load latest).map Prod.snd) ∧
        (r.previous_avg = 0 → r.percent_change = none) ∧
        (r.previous_avg ≠ 0 → r.percent_change =
          some ((r.latest_avg - r.previous_avg) / r.previous_avg * 100)) ∧
        (r.alert = true ↔ ∃ pc : ℚ, r.percent_change = some pc ∧ 20 < |pc|)) ∧
    run_level_comparison "base" [("a", 10), ("b", 10)] [("a", 12), ("b", 12)] =
      ⟨"base", 10, 12, some 20, false⟩ := by
  refine ⟨?_, ?_, ?_, ?_⟩
  · intro h
    simp only [detect_performance_anomalies]
    rw [if_pos h]
  · intro h hfind
    have hpp : detect_performance_anomalies load latest folders =
        ⟨internal_outlier_anomalies (load latest), []⟩ := by
      simp only [detect_performance_anomalies]
      rw [if_neg h, hfind]
    rw [hpp]
    refine ⟨rfl, ?_⟩
    intro u t pc hmem
    obtain ⟨url, time, b1, b2, heq⟩ := mem_internal_outlier hmem
    exact absurd heq (by simp)
  · intro prev h hfind
    have hpp : detect_performance_anomalies load latest folders =
        ⟨internal_outlier_anomalies (load latest) ++
            percent_increase_anomalies (load latest) (load prev),
          [run_level_comparison prev (load prev) (load latest)]⟩ := by
      simp only [detect_performance_anomalies]
      rw [if_neg h, hfind]
    rw [hpp]
    refine ⟨run_level_comparison prev (load prev) (load latest), rfl, rfl, rfl, rfl,
      ?_, ?_, ?_⟩
    · intro h0
      have h0' : mean ((load prev).map Prod.snd) = 0 := h0
      simp only [run_level_comparison]
      rw [if_neg (not_not_intro h0')]
    · intro h0
      have h0' : mean ((load prev).map Prod.snd) ≠ 0 := h0
      simp only [run_level_comparison]
      rw [if_pos h0']
    · by_cases h0 : mean ((load prev).map Prod.snd) = 0
      · simp only [run_level_comparison]
        rw [if_neg (not_not_intro h0)]
        simp
      · simp only [run_level_comparison]
        rw [if_pos h0]
        simp
  · simp only [run_level_comparison]
    norm_num [mean]

/-- Witness for C2 at concrete runs: an empty latest run yields the empty
result, and the boundary comparison of averages 10 and 12 carries percent
change exactly 20 with the alert off. -/
theorem c2_run_level_contract_witness :
    detect_performance_anomalies (fun _ => ([] : List (String × ℚ))) "r" [] = ⟨[], []⟩ ∧
    run_level_comparison "base" [("a", 10), ("b", 10)] [("a", 12), ("b", 12)] =
      ⟨"base", 10, 12, some 20, false⟩ :=
  ⟨(c2_run_level_contract (fun _ => []) "r" []).1 rfl,
    (c2_run_level_contract (fun _ => []) "r" []).2.2.2⟩

/-! C3: the per-page percent-increase rule. -/

/-- Membership in the percent-increase records: exactly the latest-run
pairs whose url has a non-zero baseline value and whose percent change has
absolute value at least 30. -/
theorem mem_percent_increase {lm pm : List (String × ℚ)} {a : PerPageAnomaly} :
    a ∈ percent_increase_anomalies lm pm ↔
      ∃ u t prevT, (u, t) ∈ lm ∧ dict_get pm u = some prevT ∧ prevT ≠ 0 ∧
        30 ≤ |(t - prevT) / prevT * 100| ∧
        a = PerPageAnomaly.percentIncrease u t ((t - prevT) / prevT * 100) := by
  rw [percent_increase_anomalies, List.mem_filterMap]
  constructor
  · rintro ⟨⟨u, t⟩, hm, hf⟩
    dsimp only at hf
    rcases hd : dict_get pm u with _ | pt
    · rw [hd] at hf
      exact absurd hf (by simp)
    · rw [hd] at hf
      dsimp only at hf
      by_cases h0 : pt ≠ 0
      · rw [if_pos h0] at hf
        by_cases h30 : 30 ≤ |(t - pt) / pt * 100|
        · rw [if_pos h30] at hf
          exact ⟨u, t, pt, hm, hd, h0, h30, (Option.some_inj.mp hf).symm⟩
        · rw [if_neg h30] at hf
          exact absurd hf (by simp)
      · rw [if_neg h0] at hf
        exact absurd hf (by simp)
  · rintro ⟨u, t, pt, hm, hd, h0, h30, rfl⟩
    refine ⟨(u, t), hm, ?_⟩
    dsimp only
    rw [hd]
    dsimp only
    rw [if_pos h0, if_pos h30]

/-- C3: with a baseline selected, a latest-run pair (u, t) whose url has a
non-zero baseline value prevT produces a PercentIncrease record with pct =
(t - prevT)/prevT * 100 iff abs pct >= 30; pairs whose baseline value is 0
produce nothing for that url; and concretely a change of exactly 30.0 (13
against a last-write-wins baseline of 10) is flagged while 29.999 is not. -/
theorem c3_percent_increase_rule (load : String → List (String × ℚ))
    (latest : String) (folders : List String) (prev : String)
    (hne : load latest ≠ [])
    (hfind : (folders.dropLast.reverse).find? (fun f => !(load f).isEmpty) = some prev)
    (u : String) (t prevT : ℚ)
    (hmem : (u, t) ∈ load latest)
    (hget : dict_get (load prev) u = some prevT) :
    (prevT ≠ 0 →
      (PerPageAnomaly.percentIncrease u t ((t - prevT) / prevT * 100) ∈
          (detect_performance_anomalies load latest folders).per_page ↔
        30 ≤ |(t - prevT) / prevT * 100|)) ∧
    (prevT = 0 → ∀ t' pc : ℚ, PerPageAnomaly.percentIncrease u t' pc ∉
      (detect_performance_anomalies load latest folders).per_page) ∧
    percent_increase_anomalies [("a", 13), ("b", 129999 / 10000)]
        [("a", 7), ("a", 10), ("b", 10)] =
      [PerPageAnomaly.percentIncrease "a" 13 30] := by
  have hpp : (detect_performance_anomalies load latest folders).per_page =
      internal_outlier_anomalies (load latest) ++
        percent_increase_anomalies (load latest) (load prev) := by
    simp only [detect_performance_anomalies]
    rw [if_neg hne, hfind]
  refine ⟨?_, ?_, ?_⟩
  · intro h0
    rw [hpp, List.mem_append]
    constructor
    · rintro (hin | hin)
      · obtain ⟨url, time, b1, b2, heq⟩ := mem_internal_outlier hin
        exact absurd heq (by simp)
      · obtain ⟨u', t', pt', -, hd', -, h30', heq⟩ := mem_percent_increase.mp hin
        obtain ⟨hu, ht, hpct⟩ : u = u' ∧ t = t' ∧
            (t - prevT) / prevT * 100 = (t' - pt') / pt' * 100 := by
          simpa using heq
        subst hu; subst ht
        rw [hget] at hd'
        obtain rfl : prevT = pt' := Option.some_inj.mp hd'
        exact hpct ▸ h30'
    · intro h30
      exact Or.inr (mem_percent_increase.mpr ⟨u, t, prevT, hmem, hget, h0, h30, rfl⟩)
  · intro h0 t' pc hin
    rw [hpp, List.mem_append] at hin
    rcases hin with hin | hin
    · obtain ⟨url, time, b1, b2, heq⟩ := mem_internal_outlier hin
      exact absurd heq (by simp)
    · obtain ⟨u', t'', pt', -, hd', hne', -, heq⟩ := mem_percent_increase.mp hin
      obtain ⟨hu, -, -⟩ : u = u' ∧ t' = t'' ∧
          pc = (t'' - pt') / pt' * 100 := by simpa using heq
      subst hu
      rw [hget] at hd'
      exact hne' (by rw [← Option.some_inj.mp hd', h0])
  · have hda : dict_get [("a", 7), ("a", 10), ("b", 10)] "a" = some 10 := by
      simp [dict_get]
    have hdb : dict_get [("a", 7), ("a", 10), ("b", 10)] "b" = some 10 := by
      simp [dict_get]
    rw [percent_increase_anomalies, List.filterMap_cons, List.filterMap_cons]
    dsimp only
    rw [hda, hdb]
    dsimp only
    rw [if_pos (by norm_num : (10 : ℚ) ≠ 0),
      if_pos (by norm_num : (30 : ℚ) ≤ |((13 : ℚ) - 10) / 10 * 100|),
      if_pos (by norm_num : (10 : ℚ) ≠ 0),
      if_neg (by
        rw [show ((129999 / 10000 : ℚ) - 10) / 10 * 100 = 29999 / 1000 by norm_num,
          abs_of_nonneg (by norm_num : (0 : ℚ) ≤ 29999 / 1000)]
        norm_num)]
    norm_num

/-- Witness for C3 on the concrete fixture: the exactly-30-percent page is
flagged with pct 30, the 29.999-percent page is not flagged. -/
theorem c3_percent_increase_rule_witness :
    PerPageAnomaly.percentIncrease "a" 13 30 ∈
      (detect_performance_anomalies load_c3 "r2" ["r1", "r2"]).per_page ∧
    PerPageAnomaly.percentIncrease "b" (129999 / 10000)
        (((129999 / 10000 : ℚ) - 10) / 10 * 100) ∉
      (detect_performance_anomalies load_c3 "r2" ["r1", "r2"]).per_page := by
  constructor
  · have h := (c3_percent_increase_rule load_c3 "r2" ["r1", "r2"] "r1"
      (by simp [load_c3]) (by simp [load_c3]) "a" 13 10
      (by simp [load_c3]) (by simp [dict_get, load_c3])).1 (by norm_num)
    have he : ((13 : ℚ) - 10) / 10 * 100 = 30 := by norm_num
    rw [he] at h
    exact h.mpr (by norm_num)
  · have h := (c3_percent_increase_rule load_c3 "r2" ["r1", "r2"] "r1"
      (by simp [load_c3]) (by simp [load_c3]) "b" (129999 / 10000) 10
      (by simp [load_c3]) (by simp [dict_get, load_c3])).1 (by norm_num)
    intro hin
    have habs : |((129999 / 10000 : ℚ) - 10) / 10 * 100| = 29999 / 1000 := by
      rw [show ((129999 / 10000 : ℚ) - 10) / 10 * 100 = 29999 / 1000 by norm_num]
      exact abs_of_nonneg (by norm_num)
    exact absurd (h.mp hin) (by rw [habs]; norm_num)

/-! C9: composition and order of the per-page collection. -/

/-- The union of the two flagged index sets is strictly ascending (hence
deduplicated). -/
theorem sorted_union_sorted (a b : List ℕ) :
    List.Sorted (· < ·) (sorted_union a b) := by
  have hs : List.Sorted (· ≤ ·) (sorted_union a b) :=
    List.sorted_insertionSort (· ≤ ·) ((a ++ b).dedup)
  have hn : (sorted_union a b).Nodup :=
    ((List.perm_insertionSort (· ≤ ·) ((a ++ b).dedup)).symm).nodup
      (List.nodup_dedup _)
  exact hs.lt_of_le hn

/-- Membership in the union is membership in either flagged set. -/
theorem mem_sorted_union (a b : List ℕ) (i : ℕ) :
    i ∈ sorted_union a b ↔ i ∈ a ∨ i ∈ b := by
  rw [sorted_union,
    (List.perm_insertionSort (· ≤ ·) ((a ++ b).dedup)).mem_iff,
    List.mem_dedup, List.mem_append]

/-- C9: the per-page collection is the internal-outlier records — one per
index of the deduplicated union of the two methods' flagged sets, in
strictly ascending index order, each with its own iqr and zscore
attribution — followed (when a baseline exists) by the percent-increase
records in latest-run iteration order, and every record of that appended
part is a PercentIncrease. -/
theorem c9_per_page_composition (load : String → List (String × ℚ))
    (latest : String) (folders : List String) (hne : load latest ≠ []) :
    List.Sorted (· < ·) (sorted_union (iqr_outliers ((load latest).map Prod.snd))
      (zscore_outliers ((load latest).map Prod.snd) (5 / 2))) ∧
    (∀ i : ℕ, i ∈ sorted_union (iqr_outliers ((load latest).map Prod.snd))
        (zscore_outliers ((load latest).map Prod.snd) (5 / 2)) ↔
      i ∈ iqr_outliers ((load latest).map Prod.snd) ∨
        i ∈ zscore_outliers ((load latest).map Prod.snd) (5 / 2)) ∧
    internal_outlier_anomalies (load latest) =
      (sorted_union (iqr_outliers ((load latest).map Prod.snd))
          (zscore_outliers ((load latest).map Prod.snd) (5 / 2))).map (fun i =>
        PerPageAnomaly.internalOutlier (((load latest).map Prod.fst).getD i "")
          (((load latest).map Prod.snd).getD i 0)
          (decide (i ∈ iqr_outliers ((load latest).map Prod.snd)))
          (decide (i ∈ zscore_outliers ((load latest).map Prod.snd) (5 / 2)))) ∧
    ((folders.dropLast.reverse).find? (fun f => !(load f).isEmpty) = none →
      (detect_performance_anomalies load latest folders).per_page =
        internal_outlier_anomalies (load latest)) ∧
    (∀ prev : String,
      (folders.dropLast.reverse).find? (fun f => !(load f).isEmpty) = some prev →
      (detect_performance_anomalies load latest folders).per_page =
        internal_outlier_anomalies (load latest) ++
          percent_increase_anomalies (load latest) (load prev)) ∧
    (∀ (pm : List (String × ℚ)) (a : PerPageAnomaly),
      a ∈ percent_increase_anomalies (load latest) pm →
      ∃ u t pc, a = PerPageAnomaly.percentIncrease u t pc) := by
  refine ⟨sorted_union_sorted _ _, fun i => mem_sorted_union _ _ i, rfl, ?_, ?_, ?_⟩
  · intro h
    simp only [detect_performance_anomalies]
    rw [if_neg hne, h]
  · intro prev h
    simp only [detect_performance_anomalies]
    rw [if_neg hne, h]
  · intro pm a ha
    obtain ⟨u, t, pt, -, -, -, -, heq⟩ := mem_percent_increase.mp ha
    exact ⟨u, t, _, heq⟩

/-- Witness for C9 on the concrete fixture: page "h" appears once as an
InternalOutlier (attributed to the z-score method only) and, after it,
once more as a PercentIncrease — the two records are not merged. -/
theorem c9_per_page_composition_witness :
    (detect_performance_anomalies load_c9 "r2" ["r1", "r2"]).per_page =
      [PerPageAnomaly.internalOutlier "h" 10 false true,
        PerPageAnomaly.percentIncrease "h" 10 900] := by
  have h := (c9_per_page_composition load_c9 "r2" ["r1", "r2"]
      (by simp [load_c9])).2.2.2.2.1 "r1" (by simp [load_c9])
  rw [h,
    show load_c9 "r2" = [("a", 1), ("b", 1), ("c", 1), ("d", 1), ("e", 1), ("f", 1),
      ("g", 1), ("h", 10)] by simp [load_c9],
    show load_c9 "r1" = [("a", 1), ("b", 1), ("c", 1), ("d", 1), ("e", 1), ("f", 1),
      ("g", 1), ("h", 1)] by simp [load_c9]]
  have hiqr : iqr_outliers [1, 1, 1, 1, 1, 1, 1, 10] = [] := by
    norm_num [iqr_outliers, List.insertionSort, List.orderedInsert]
  have hz : zscore_outliers [1, 1, 1, 1, 1, 1, 1, 10] (5 / 2) = [7] := by
    norm_num [zscore_outliers, pvariance, mean, List.enum, List.enumFrom, List.filter]
  have hint : internal_outlier_anomalies [("a", 1), ("b", 1), ("c", 1), ("d", 1),
      ("e", 1), ("f", 1), ("g", 1), ("h", 10)] =
      [PerPageAnomaly.internalOutlier "h" 10 false true] := by
    simp only [internal_outlier_anomalies]
    rw [show ([("a", (1 : ℚ)), ("b", 1), ("c", 1), ("d", 1), ("e", 1), ("f", 1),
        ("g", 1), ("h", 10)].map Prod.snd) = [1, 1, 1, 1, 1, 1, 1, 10] from rfl,
      show ([("a", (1 : ℚ)), ("b", 1), ("c", 1), ("d", 1), ("e", 1), ("f", 1),
        ("g", 1), ("h", 10)].map Prod.fst) = ["a", "b", "c", "d", "e", "f", "g", "h"]
        from rfl, hiqr, hz]
    rw [show sorted_union [] [7] = [7] from rfl]
    simp [List.getD]
  have h0 : |(0 : ℚ)| = 0 := abs_zero
  have h900 : |(900 : ℚ)| = 900 := abs_of_nonneg (by norm_num)
  have hdict : ∀ u : String, u ∈ (["a", "b", "c", "d", "e", "f", "g", "h"] : List String) →
      dict_get [("a", (1 : ℚ)), ("b", 1), ("c", 1), ("d", 1),
        ("e", 1), ("f", 1), ("g", 1), ("h", 1)] u = some 1 := by
    intro u hu
    fin_cases hu <;> simp [dict_get]
  have hpct : percent_increase_anomalies [("a", 1), ("b", 1), ("c", 1), ("d", 1),
      ("e", 1), ("f", 1), ("g", 1), ("h", 10)] [("a", 1), ("b", 1), ("c", 1),
      ("d", 1), ("e", 1), ("f", 1), ("g", 1), ("h", 1)] =
      [PerPageAnomaly.percentIncrease "h" 10 900] := by
    rw [percent_increase_anomalies]
    simp only [List.filterMap_cons,
      hdict "a" (by simp), hdict "b" (by simp), hdict "c" (by simp),
      hdict "d" (by simp), hdict "e" (by simp), hdict "f" (by simp),
      hdict "g" (by simp), hdict "h" (by simp)]
    norm_num [h0, h900]
  rw [hint, hpct]
  rfl

/-! C6: the deterministic local summary. -/

/-- The run-level bullet loop (lines 295-301) keeps, in order, one bullet
per comparison with a defined percent change, skipping the null ones. -/
theorem foldl_run_level_bullets (rl : List RunLevelComparison) (acc : List Bullet) :
    rl.foldl (fun acc r =>
      match r.percent_change with
      | none => acc
      | some pct =>
          acc ++ [if 20 < |pct| then Bullet.runLevelAlert pct r.previous_run
                  else Bullet.runLevelNeutral pct r.previous_run]) acc =
    acc ++ rl.filterMap (fun r => r.percent_change.map (fun pct =>
      if 20 < |pct| then Bullet.runLevelAlert pct r.previous_run
      else Bullet.runLevelNeutral pct r.previous_run)) := by
  induction rl generalizing acc with
  | nil => simp
  | cons r rest ih =>
    rw [List.foldl_cons, List.filterMap_cons]
    cases h : r.percent_change with
    | none =>
        rw [ih]
        simp
    | some pct =>
        rw [ih]
        simp [List.append_assoc]

/-- C6 (amended): the local summary is, in order, one bullet per
RunLevelComparison with a defined percent change (regression-alert
phrasing iff its absolute value strictly exceeds 20, neutral otherwise;
comparisons with a null percent change contribute no bullet), then — when
per-page anomalies exist — a count bullet followed by at most the first 4
anomalies as sub-bullets (percent changes for PercentIncrease, raw elapsed
times for InternalOutlier), then a count bullet when visual anomalies
exist; exactly one stable bullet when all of that is empty; and always the
two fixed recommendation bullets appended, with source Local. -/
theorem c6_local_summary (perf : PerfResult) (visual : List VisualAnomaly) :
    generate_text_summary perf visual =
      ⟨InsightSource.localFallback,
        (fun core => (if core = [] then [Bullet.stable] else core) ++
          [Bullet.recommendation1, Bullet.recommendation2])
        (perf.run_level.filterMap (fun r => r.percent_change.map (fun pct =>
            if 20 < |pct| then Bullet.runLevelAlert pct r.previous_run
            else Bullet.runLevelNeutral pct r.previous_run)) ++
          ((if perf.per_page = [] then []
            else Bullet.perPageCount perf.per_page.length ::
              (perf.per_page.take 4).map bullet_of_anomaly) ++
            (if visual = [] then [] else [Bullet.visualCount visual.length])))⟩ := by
  simp only [generate_text_summary]
  rw [foldl_run_level_bullets]
  simp only [List.nil_append]
  by_cases hp : perf.per_page = [] <;> by_cases hv : visual = [] <;>
    simp [hp, hv, List.isEmpty_iff, List.append_assoc]

/-- Counterexample to C6 as stated: in a reachable analysis whose single
RunLevelComparison has a null percent change (baseline average 0), the
summary contains no run-level bullet at all, so it does not contain one
bullet per RunLevelComparison. -/
theorem c6_local_summary_cex :
    ((generate_text_summary
        (detect_performance_anomalies load_c6 "r2" ["r1", "r2"]) []).bullets.countP
      isRunLevelBullet) ≠
    (detect_performance_anomalies load_c6 "r2" ["r1", "r2"]).run_level.length := by
  have hdet : detect_performance_anomalies load_c6 "r2" ["r1", "r2"] =
      ⟨[], [⟨"r1", 0, 5, none, false⟩]⟩ := by
    have hint : internal_outlier_anomalies (load_c6 "r2") = [] := by
      rw [show load_c6 "r2" = [("a", 5)] by simp [load_c6]]
      simp only [internal_outlier_anomalies]
      rw [show ([("a", (5 : ℚ))].map Prod.snd) = [5] from rfl,
        show iqr_outliers [5] = [] by
          norm_num [iqr_outliers, List.insertionSort, List.orderedInsert],
        show zscore_outliers [5] (5 / 2) = [] by norm_num [zscore_outliers]]
      rfl
    have hpct : percent_increase_anomalies (load_c6 "r2") (load_c6 "r1") = [] := by
      rw [show load_c6 "r2" = [("a", 5)] by simp [load_c6],
        show load_c6 "r1" = [("a", 0), ("b", 0)] by simp [load_c6],
        percent_increase_anomalies]
      simp only [List.filterMap_cons,
        show dict_get [("a", (0 : ℚ)), ("b", 0)] "a" = some 0 by simp [dict_get]]
      norm_num
    have hrlc : run_level_comparison "r1" (load_c6 "r1") (load_c6 "r2") =
        ⟨"r1", 0, 5, none, false⟩ := by
      rw [show load_c6 "r1" = [("a", 0), ("b", 0)] by simp [load_c6],
        show load_c6 "r2" = [("a", 5)] by simp [load_c6]]
      simp only [run_level_comparison]
      norm_num [mean]
    simp only [detect_performance_anomalies]
    rw [if_neg (by simp [load_c6]),
      show (["r1", "r2"].dropLast.reverse).find? (fun f => !(load_c6 f).isEmpty) =
        some "r1" by simp [load_c6]]
    dsimp only
    rw [hint, hpct, hrlc]
    rfl
  rw [hdet]
  decide

end AutoVisQA
